import Mathlib

/-!
Verification development for the CodeBuild website pre-renderer
(src/index.js).  The definitions below are shallow embeddings of the
source functions: pure string manipulation is translated directly,
Node path handling is modelled segment-wise, the puppeteer browser and
the filesystem are abstracted as explicit inputs, and the event-driven
scheduler of prerenderPaths is modelled as a small-step transition
system driven by task resolutions.
-/

namespace RenderSite

/-! ## String helpers

The source manipulates JavaScript strings; we model them as Lean
strings and do the algorithmic work on their character lists so that
everything evaluates in the kernel. -/

/-- Boolean test that `suffix` ends `s`, the model of a JS
end-anchored pattern match such as `/\.html$/` or `String.endsWith`. -/
def strEndsWith (s suffix : String) : Bool :=
  decide (suffix.data <:+ s.data)

/-- Boolean test that `pre` starts `s`, the model of
`String.prototype.startsWith`. -/
def strStartsWith (s pre : String) : Bool :=
  decide (pre.data <+: s.data)

/-- Split a character list at the separator character, keeping empty
segments (the behaviour of a character-wise scan of a path). -/
def splitSlashAux : List Char → List Char → List (List Char)
  | [], acc => [acc.reverse]
  | c :: rest, acc =>
    if c = '/' then acc.reverse :: splitSlashAux rest []
    else splitSlashAux rest (c :: acc)

/-- Segments of a string separated by the slash character. -/
def splitSlash (s : String) : List String :=
  (splitSlashAux s.data []).map (fun l => String.mk l)

/-- Join path segments with single slashes. -/
def joinSegs : List String → String
  | [] => ""
  | [s] => s
  | s :: rest => s ++ "/" ++ joinSegs rest

/-- Model of Node `path.join` for the relative, dot-free paths the
renderer builds: concatenate the parts and normalise away empty and
duplicate separators. -/
def pathJoin (parts : List String) : String :=
  joinSegs ((parts.flatMap (fun p => splitSlash p)).filter (fun s => s != ""))

/-- Model of Node `path.dirname` for relative paths: drop the last
segment, or produce the relative-directory marker when there is a
single segment (source line 110). -/
def dirname (p : String) : String :=
  let segs := splitSlash p
  if segs.length ≤ 1 then "." else joinSegs segs.dropLast

/-- Remove the last `n` characters of a string. -/
def dropLastChars (p : String) (n : Nat) : String :=
  String.mk (p.data.take (p.data.length - n))

/-- The `ensureSlashPrefix` helper of the source (line 135), renamed
because of lexical restrictions on declaration names here. -/
def ensureLeadingSlash (path : String) : String :=
  if strStartsWith path "/" then path else "/" ++ path

/-! ## Output path mapping (source lines 42, 88-95) -/

/-- The fixed output root of the renderer (source line 42). -/
def outDir : String := "rendered"

/-- The HTML canonicalisation step of `writeRenderedPage` (source
lines 93-95): a path that does not already end in `.html` gains a
trailing `index.html` file name. -/
def htmlCanon (p : String) : String :=
  if strEndsWith p ".html" then p else pathJoin [p, "index.html"]

/-- The output path computed by `writeRenderedPage` before the gzip
suffix (source lines 88-95): join the output root, the configured
sub-folder and the identifier path, then canonicalise. -/
def mapOutPath (outFolder relPath : String) : String :=
  htmlCanon (pathJoin [outDir, outFolder, relPath])

/-- Model of `fullPath.replace(/\.html(\.gz)?$/, '.json')` (source
line 114): swap a final `.html` or `.html.gz` suffix for `.json`. -/
def swapToJson (p : String) : String :=
  if strEndsWith p ".html.gz" then dropLastChars p 8 ++ ".json"
  else if strEndsWith p ".html" then dropLastChars p 5 ++ ".json"
  else p

/-! ## Request filter policy (source lines 216-257)

The interception handler of `fetchPage` decides continue-or-abort for
every sub-resource request.  A compiled block-pattern regular
expression is abstracted as a predicate on the request URL, and the
URL components (`pathname`, `host`) that `new URL` would produce are
carried explicitly, since URL parsing is an external capability. -/

/-- Resource kind classification reported by the browser. -/
inductive ResourceType
  | document | stylesheet | script | xhr | fetch
  | image | font | media | texttrack | websocket | manifest | other
deriving DecidableEq, BEq

/-- One intercepted sub-resource request with its parsed URL parts. -/
structure SubRequest where
  url : String
  pathname : String
  host : String
  resourceType : ResourceType

/-- The configured block rules (BLOCK_PATTERNS, BLOCK_HOSTS). -/
structure FilterConfig where
  blockPatterns : List (String → Bool)
  blockHosts : List String

/-- The resource-kind allow list of the handler (source lines 224-230). -/
def typeAllowlist : List ResourceType :=
  [ResourceType.document, ResourceType.stylesheet, ResourceType.script,
   ResourceType.xhr, ResourceType.fetch]

/-- The `isAllowed` test of the handler (source lines 233-237): kind in the
allow list, or pathname matching `/\.(js|css)$/`. -/
def isAllowed (req : SubRequest) : Bool :=
  typeAllowlist.contains req.resourceType
  || strEndsWith req.pathname ".js"
  || strEndsWith req.pathname ".css"

/-- The `isBlocked` test of the handler (source lines 238-243): a block-pattern
match on the full URL, a pathname matching `/\.(woff2)$/`, or a host
in the block-host list. -/
def isBlocked (cfg : FilterConfig) (req : SubRequest) : Bool :=
  cfg.blockPatterns.any (fun p => p req.url)
  || strEndsWith req.pathname ".woff2"
  || cfg.blockHosts.contains req.host

/-- The continue-or-abort decision of the handler (source line 244):
continue exactly when allowed and not blocked. -/
def filterDecision (cfg : FilterConfig) (req : SubRequest) : Bool :=
  isAllowed req && !(isBlocked cfg req)

/-! ## Inline script hash extraction (source lines 63-77)

`computeInlineScriptHashes` scans the markup with the global lazy
pattern `/<script>(.*?)<\/script>/gs` and hashes each matched block
after deleting the tags with `/<\/?script>/g`.  The SHA-256 base64
digest is an external crypto capability and is abstracted as a
function parameter. -/

/-- The literal opening tag scanned for. -/
def openTag : List Char := "<script>".data

/-- The literal closing tag scanned for. -/
def closeTag : List Char := "</script>".data

theorem openTag_length : openTag.length = 8 := rfl

theorem closeTag_length : closeTag.length = 9 := rfl

/-- Find the first occurrence of `pat` in a character list, returning
the characters before it and the characters after it. -/
def findSplit (pat : List Char) : List Char → Option (List Char × List Char)
  | [] => if pat.isPrefixOf ([] : List Char) then some ([], []) else none
  | c :: rest =>
    if pat.isPrefixOf (c :: rest) then some ([], (c :: rest).drop pat.length)
    else (findSplit pat rest).map (fun pr => (c :: pr.1, pr.2))

theorem findSplit_length {pat : List Char} :
    ∀ {s pre post : List Char}, findSplit pat s = some (pre, post) →
      post.length + pat.length ≤ s.length := by
  intro s
  induction s with
  | nil =>
    intro pre post h
    unfold findSplit at h
    by_cases hp : pat.isPrefixOf ([] : List Char)
    · rw [if_pos hp] at h
      have hlen : pat.length ≤ ([] : List Char).length :=
        (List.isPrefixOf_iff_prefix.mp hp).length_le
      injection h with h
      injection h with h1 h2
      subst h2
      simpa using hlen
    · rw [if_neg hp] at h
      exact absurd h (by simp)
  | cons c rest ih =>
    intro pre post h
    unfold findSplit at h
    by_cases hp : pat.isPrefixOf (c :: rest)
    · rw [if_pos hp] at h
      have hlen : pat.length ≤ (c :: rest).length :=
        (List.isPrefixOf_iff_prefix.mp hp).length_le
      injection h with h
      injection h with h1 h2
      subst h2
      rw [List.length_drop]
      omega
    · rw [if_neg hp] at h
      cases hfr : findSplit pat rest with
      | none => rw [hfr] at h; exact absurd h (by simp)
      | some pr =>
        obtain ⟨p1, p2⟩ := pr
        rw [hfr] at h
        injection h with h
        injection h with h1 h2
        subst h2
        have := ih hfr
        simp only [List.length_cons]
        omega

/-- The ordered matches of `/<script>(.*?)<\/script>/gs`: each match
is the full block from an opening tag through the first closing tag
after it, and scanning resumes after the match. -/
def extractBlocksL (s : List Char) : List (List Char) :=
  match h1 : findSplit openTag s with
  | none => []
  | some (_, afterOpen) =>
    match h2 : findSplit closeTag afterOpen with
    | none => []
    | some (body, afterClose) =>
      (openTag ++ body ++ closeTag) :: extractBlocksL afterClose
termination_by s.length
decreasing_by
  have ha := findSplit_length h1
  have hb := findSplit_length h2
  rw [openTag_length] at ha
  rw [closeTag_length] at hb
  omega

/-- Character-wise model of `script.replace(/<\/?script>/g, '')`: every
occurrence of an opening or closing script tag is deleted, scanning
left to right. -/
def stripScriptL : List Char → List Char
  | [] => []
  | c :: rest =>
    if closeTag.isPrefixOf (c :: rest) then stripScriptL ((c :: rest).drop 9)
    else if openTag.isPrefixOf (c :: rest) then stripScriptL ((c :: rest).drop 8)
    else c :: stripScriptL rest
termination_by s => s.length
decreasing_by
  all_goals simp [List.length_drop]
  all_goals omega

/-- String-level wrapper for the block matches. -/
def extractScriptBlocks (html : String) : List String :=
  (extractBlocksL html.data).map (fun l => String.mk l)

/-- String-level wrapper for the tag-deleting replace. -/
def stripScriptTags (s : String) : String :=
  String.mk (stripScriptL s.data)

/-- The `computeInlineScriptHashes` function (source lines 63-77): one digest per
matched block, in match order, of the tag-stripped block content.
`sha` abstracts the external SHA-256 base64 digest. -/
def computeInlineScriptHashes (sha : String → String) (html : String) :
    List String :=
  (extractScriptBlocks html).map (fun sc => sha (stripScriptTags sc))

/-- Model of the serialisation `JSON.stringify({scriptHashes: hashes})` for plain base64 digest
strings (source line 117). -/
def scriptHashesJson (hashes : List String) : String :=
  "\x7b\"scriptHashes\":[" ++
    String.intercalate "," (hashes.map (fun h => "\"" ++ h ++ "\"")) ++
    "]\x7d"

/-! ## Page renderer adapter (source lines 208-299)

`fetchPage` opens a page, installs the request filter, navigates, and
extracts HTML inside a try/catch; `await page.close()` runs after the
try/catch on every path and the function returns `html`, which stays
undefined on any caught failure.  The browser behaviour for one call
is abstracted as a `RenderEnv`: the outcome of `page.goto` (a thrown
navigation error or timeout, versus a resolved response and its
status), whether a configured `waitForSelector` finds its element
before its timeout, and the serialised content `page.content()` would
return.  The returned pair is `(html, page closed)`. -/

/-- Outcome of `page.goto`: either it threw (navigation error or
timeout), or it resolved with a response carrying a status code. -/
inductive NavResult
  | navError
  | resolved (status : Nat)
deriving DecidableEq

/-- The browser-side behaviour driving one `fetchPage` call. -/
structure RenderEnv where
  nav : NavResult
  selectorFound : Bool
  content : String
deriving DecidableEq

/-- The wait configuration (WAIT_FOR_SELECTOR, WAIT_MILLISECONDS,
source lines 277-285). -/
structure WaitConfig where
  selector : Option String
  waitMs : Nat
deriving DecidableEq

/-- The try block of `fetchPage` (source lines 211-296): navigation
either throws, or resolves; an armed selector wait that never finds
its element throws; a resolved response below status 300 yields the
serialised content and any other status leaves html unset (with a
warning logged, no throw). -/
def fetchPageTry (cfg : WaitConfig) (env : RenderEnv) :
    NavResult → Except Unit (Option String)
  | NavResult.navError => Except.error ()
  | NavResult.resolved status =>
    if cfg.selector.isSome && !env.selectorFound then Except.error ()
    else if status < 300 then Except.ok (some env.content)
    else Except.ok none

/-- The catch clause (source lines 293-296): any thrown error is
logged and `html` stays undefined. -/
def catchHtml : Except Unit (Option String) → Option String
  | Except.ok h => h
  | Except.error _ => none

/-- Shallow embedding of `fetchPage` (source lines 208-299): run the
try block, catch anything it throws, then close the page (after the
try/catch, so on every path) and return `html`.  The returned pair is
`(html, page closed)`. -/
def fetchPage (env : RenderEnv) (cfg : WaitConfig) : Option String × Bool :=
  (catchHtml (fetchPageTry cfg env env.nav), true)

/-! ## Output pipeline (source lines 84-122)

`writeRenderedPage` receives the page URL and the optional html.  The
URL is modelled as its origin plus the remainder, since the source
computes `url.replace(new URL(url).origin, '')` and the origin of a
well-formed absolute URL is its prefix, so the replace leaves exactly
the remainder.  The filesystem is abstracted as a failure oracle per
path; the CSS inliner, gzip and SHA-256 capabilities are abstracted
as function parameters.  The function has no try/catch in the source,
so a filesystem failure escapes it: we model its result as an
`Except`, whose `ok` payload lists the `saved` events emitted and the
files written.  (On an error the source may already have written the
page file before failing on the sidecar; the payload of an `error`
result carries no file list, which is all the claims need.) -/

/-- A page URL split as origin plus remainder path. -/
structure PageUrl where
  origin : String
  pathPart : String
deriving DecidableEq

/-- The full URL string. -/
def PageUrl.full (u : PageUrl) : String := u.origin ++ u.pathPart

/-- The configuration fields of `getParameters` that
`writeRenderedPage` consumes (source lines 176-185), plus the
INLINE_CSS toggle read from the environment at line 99. -/
structure WriteParams where
  outFolder : String
  gzip : Bool
  computeScriptHashes : Bool
  inlineCss : Bool
deriving DecidableEq

/-- Failure oracle for the filesystem: which `mkdirSync` and
`writeFileSync` calls throw. -/
structure FsModel where
  mkdirFails : String → Bool
  writeFails : String → Bool

/-- The always-succeeding filesystem. -/
def fsOk : FsModel := ⟨fun _ => false, fun _ => false⟩

/-- Shallow embedding of `writeRenderedPage` (source lines 84-122).
Absent html emits the `saved` event and returns at once; otherwise the
output path is computed, css inlining and gzip are applied per the
configuration, directory creation and the write happen (either may
throw, escaping the function), the optional sidecar is written, and
the `saved` event is emitted. -/
def writeRenderedPage (fsM : FsModel) (inlinerFn gzipFn sha : String → String)
    (params : WriteParams) (u : PageUrl) (html : Option String) :
    Except String (List String × List (String × String)) :=
  match html with
  | none => Except.ok ([u.full], [])
  | some h0 =>
    let p1 := mapOutPath params.outFolder u.pathPart
    let fullPath := if params.gzip then p1 ++ ".gz" else p1
    let h := if params.inlineCss then inlinerFn h0 else h0
    let dir := dirname fullPath
    if fsM.mkdirFails dir then Except.error ("mkdir failed: " ++ dir)
    else if fsM.writeFails fullPath then
      Except.error ("write failed: " ++ fullPath)
    else
      let content := if params.gzip then gzipFn h else h
      if params.computeScriptHashes then
        let metadataPath := swapToJson fullPath
        if strEndsWith metadataPath "json" then
          if fsM.writeFails metadataPath then
            Except.error ("write failed: " ++ metadataPath)
          else
            Except.ok ([u.full],
              [(fullPath, content),
               (metadataPath, scriptHashesJson (computeInlineScriptHashes sha h))])
        else Except.ok ([u.full], [(fullPath, content)])
      else Except.ok ([u.full], [(fullPath, content)])

/-- What happens to the batch after one `writeRenderedPage` call: on a
fulfilled promise the `saved` event has fired and the promise chain
continues with `renderNextUrl`; on a rejection there is no handler on
the chain, so the process-level `unhandledRejection` hook
`failOnUncaughtError` (source lines 309-316) closes the browser, logs
and calls `process.exit(1)`. -/
inductive BatchEffect
  | proceeds (events : List String) (files : List (String × String))
  | aborted (exitCode : Nat)
deriving DecidableEq

/-- Routing of a `writeRenderedPage` result through the promise chain
and the `unhandledRejection` hook. -/
def afterWrite (r : Except String (List String × List (String × String))) :
    BatchEffect :=
  match r with
  | Except.ok (evs, files) => BatchEffect.proceeds evs files
  | Except.error _ => BatchEffect.aborted 1

/-- State of a whole batch run as it processes task outcomes. -/
inductive ExecState
  | running (events : List String) (files : List (String × String))
  | exited (code : Nat)
deriving DecidableEq

/-- Process one resolved task: route the render outcome through
`writeRenderedPage`; a write rejection ends the process with exit
status 1 via `failOnUncaughtError`, otherwise the `saved` events and
written files accumulate. -/
def processTask (fsM : FsModel) (inlinerFn gzipFn sha : String → String)
    (params : WriteParams) (st : ExecState) (t : PageUrl × Option String) :
    ExecState :=
  match st with
  | ExecState.exited c => ExecState.exited c
  | ExecState.running evs files =>
    match writeRenderedPage fsM inlinerFn gzipFn sha params t.1 t.2 with
    | Except.ok (e2, f2) => ExecState.running (evs ++ e2) (files ++ f2)
    | Except.error _ => ExecState.exited 1

/-- A whole batch: every task outcome routed through the output
pipeline in resolution order.  A run that is still `running` after the
last outcome has drained its event loop, so the process exits 0. -/
def runBatch (fsM : FsModel) (inlinerFn gzipFn sha : String → String)
    (params : WriteParams) (tasks : List (PageUrl × Option String)) :
    ExecState :=
  tasks.foldl (processTask fsM inlinerFn gzipFn sha params)
    (ExecState.running [] [])

/-- Final process exit status of a batch. -/
def exitCode : ExecState → Nat
  | ExecState.running _ _ => 0
  | ExecState.exited c => c

/-- The MAX_PAGES truncation (source lines 304-306):
`urls.splice(Number(max))` keeps the first `max` URLs. -/
def truncateUrls (maxPages : Option Nat) (urls : List String) : List String :=
  match maxPages with
  | none => urls
  | some n => urls.take n

/-! ## The render orchestrator (source lines 301-359)

`prerenderPaths` drives the batch with a monotone cursor
`pathPointer` and three pieces of event wiring:

* `renderNextUrl` (lines 321-335) bumps the cursor and, while it is
  inside the list, starts `fetchPage(...).then(writeRenderedPage)
  .then(renderNextUrl)` for the pointed task;
* one warm-up call `renderNextUrl()` (line 339) runs before anything
  else, and `emitter.once('saved', ...)` (lines 340-347) releases the
  remaining `maxSynchronous - 1` slots when the first `saved` event
  fires;
* `emitter.on('saved', ...)` (lines 349-358) counts every `saved`
  event and, when the count reaches the list length, closes the
  browser and emits the final report.

We model a run over `M` tasks (the truncated URL list, tasks named by
their list index) and budget `N` as a transition system whose single
step is the resolution of one in-flight task: the `saved` emission
runs the once-handler (if still armed) and then the counting handler
synchronously, and the promise chain then calls `renderNextUrl` once.
JavaScript executes all of this on one thread, so a step is atomic;
different interleavings only pick which in-flight task resolves next.
Since the handlers are registered during the synchronous prologue and
every `saved` emission happens in a later microtask, every step sees
both handlers installed. -/

/-- Scheduler state: `ptr` counts the `renderNextUrl` calls made so
far (`pathPointer + 1`), `resolved` is the set of task indices whose
`saved` event has fired, `savedCount` is `rendered.length`,
`pagesRendered` is the report counter, `warmConsumed` records whether
the `once('saved')` handler has fired, `doneEmitted` records whether
the completion branch (browser close plus final report) has run, and
`dispatchLog` lists the dispatched task indices in dispatch order. -/
structure RunState where
  ptr : Nat
  resolved : Finset Nat
  savedCount : Nat
  pagesRendered : Nat
  warmConsumed : Bool
  doneEmitted : Bool
  dispatchLog : List Nat
deriving DecidableEq

/-- One `renderNextUrl` call (source lines 321-335): bump the cursor;
a cursor inside the list dispatches that task (the out-of-range branch
only emits the listener-less `done` event). -/
def renderNextUrl (M : Nat) (s : RunState) : RunState :=
  if s.ptr < M then
    { s with ptr := s.ptr + 1, dispatchLog := s.dispatchLog ++ [s.ptr] }
  else { s with ptr := s.ptr + 1 }

/-- The state after the synchronous prologue of `prerenderPaths`: one
warm-up `renderNextUrl()` call has been made (source line 339). -/
def initState (M : Nat) : RunState :=
  renderNextUrl M ⟨0, ∅, 0, 0, false, false, []⟩

/-- Disarm the `once('saved')` handler. -/
def setWarm (s : RunState) : RunState := { s with warmConsumed := true }

/-- The `once('saved')` handler (source lines 340-347): on the first
`saved` event it runs `renderNextUrl` another `N - 1` times. -/
def warmRelease (M N : Nat) (s : RunState) : RunState :=
  if s.warmConsumed then s
  else (renderNextUrl M)^[N - 1] (setWarm s)

/-- The counting `on('saved')` handler (source lines 349-358) applied
to the resolution of task `i`: count the event, and when the count
reaches the list length run the completion branch. -/
def recordSaved (M i : Nat) (s : RunState) : RunState :=
  { s with
    resolved := insert i s.resolved,
    savedCount := s.savedCount + 1,
    pagesRendered := s.pagesRendered + 1,
    doneEmitted := s.doneEmitted || decide (s.savedCount + 1 = M) }

/-- Resolution of in-flight task `i`: `writeRenderedPage` emits
`saved`, which runs the once-handler and then the counting handler,
and the promise chain then calls `renderNextUrl` once (line 333). -/
def resolveStep (M N i : Nat) (s : RunState) : RunState :=
  renderNextUrl M (recordSaved M i (warmRelease M N s))

/-- Number of tasks dispatched so far: every cursor value below the
list length dispatched one task. -/
def dispatchCount (M : Nat) (s : RunState) : Nat := min s.ptr M

/-- Number of tasks dispatched but not yet resolved. -/
def inFlight (M : Nat) (s : RunState) : Nat :=
  dispatchCount M s - s.resolved.card

/-- A task index may resolve when it has been dispatched (tasks are
dispatched in index order, so the dispatched indices are exactly those
below the dispatch count) and its promise has not already resolved. -/
def ValidResolve (M : Nat) (s : RunState) (i : Nat) : Prop :=
  i < dispatchCount M s ∧ i ∉ s.resolved

instance (M : Nat) (s : RunState) (i : Nat) : Decidable (ValidResolve M s i) :=
  inferInstanceAs (Decidable (_ ∧ _))

/-- The states a run over `M` tasks with budget `N` can reach: the
prologue state, then any interleaving of task resolutions. -/
inductive Reachable (M N : Nat) : RunState → Prop
  | init : Reachable M N (initState M)
  | step {s : RunState} {i : Nat} :
      Reachable M N s → ValidResolve M s i →
      Reachable M N (resolveStep M N i s)

/-! ### Projection lemmas for the scheduler steps -/

@[simp] theorem setWarm_ptr (s : RunState) : (setWarm s).ptr = s.ptr := rfl

@[simp] theorem setWarm_resolved (s : RunState) :
    (setWarm s).resolved = s.resolved := rfl

@[simp] theorem setWarm_savedCount (s : RunState) :
    (setWarm s).savedCount = s.savedCount := rfl

@[simp] theorem setWarm_pagesRendered (s : RunState) :
    (setWarm s).pagesRendered = s.pagesRendered := rfl

@[simp] theorem setWarm_warmConsumed (s : RunState) :
    (setWarm s).warmConsumed = true := rfl

@[simp] theorem setWarm_doneEmitted (s : RunState) :
    (setWarm s).doneEmitted = s.doneEmitted := rfl

@[simp] theorem setWarm_log (s : RunState) :
    (setWarm s).dispatchLog = s.dispatchLog := rfl

@[simp] theorem recordSaved_ptr (M i : Nat) (s : RunState) :
    (recordSaved M i s).ptr = s.ptr := rfl

@[simp] theorem recordSaved_resolved (M i : Nat) (s : RunState) :
    (recordSaved M i s).resolved = insert i s.resolved := rfl

@[simp] theorem recordSaved_savedCount (M i : Nat) (s : RunState) :
    (recordSaved M i s).savedCount = s.savedCount + 1 := rfl

@[simp] theorem recordSaved_pagesRendered (M i : Nat) (s : RunState) :
    (recordSaved M i s).pagesRendered = s.pagesRendered + 1 := rfl

@[simp] theorem recordSaved_warmConsumed (M i : Nat) (s : RunState) :
    (recordSaved M i s).warmConsumed = s.warmConsumed := rfl

@[simp] theorem recordSaved_doneEmitted (M i : Nat) (s : RunState) :
    (recordSaved M i s).doneEmitted =
      (s.doneEmitted || decide (s.savedCount + 1 = M)) := rfl

@[simp] theorem recordSaved_log (M i : Nat) (s : RunState) :
    (recordSaved M i s).dispatchLog = s.dispatchLog := rfl

@[simp] theorem renderNextUrl_ptr (M : Nat) (s : RunState) :
    (renderNextUrl M s).ptr = s.ptr + 1 := by
  unfold renderNextUrl; split <;> rfl

@[simp] theorem renderNextUrl_resolved (M : Nat) (s : RunState) :
    (renderNextUrl M s).resolved = s.resolved := by
  unfold renderNextUrl; split <;> rfl

@[simp] theorem renderNextUrl_savedCount (M : Nat) (s : RunState) :
    (renderNextUrl M s).savedCount = s.savedCount := by
  unfold renderNextUrl; split <;> rfl

@[simp] theorem renderNextUrl_pagesRendered (M : Nat) (s : RunState) :
    (renderNextUrl M s).pagesRendered = s.pagesRendered := by
  unfold renderNextUrl; split <;> rfl

@[simp] theorem renderNextUrl_warmConsumed (M : Nat) (s : RunState) :
    (renderNextUrl M s).warmConsumed = s.warmConsumed := by
  unfold renderNextUrl; split <;> rfl

@[simp] theorem renderNextUrl_doneEmitted (M : Nat) (s : RunState) :
    (renderNextUrl M s).doneEmitted = s.doneEmitted := by
  unfold renderNextUrl; split <;> rfl

theorem renderNextUrl_log (M : Nat) (s : RunState)
    (h : s.dispatchLog = List.range (min s.ptr M)) :
    (renderNextUrl M s).dispatchLog = List.range (min (s.ptr + 1) M) := by
  unfold renderNextUrl
  by_cases hp : s.ptr < M
  · rw [if_pos hp]
    simp only [h]
    rw [Nat.min_eq_left (Nat.le_of_lt hp), Nat.min_eq_left hp, ← List.range_succ]
  · rw [if_neg hp]
    simp only [h]
    rw [Nat.min_eq_right (Nat.le_of_not_lt hp), Nat.min_eq_right (by omega)]

@[simp] theorem iterate_renderNextUrl_ptr (M k : Nat) (s : RunState) :
    ((renderNextUrl M)^[k] s).ptr = s.ptr + k := by
  induction k with
  | zero => rfl
  | succ k ih =>
    rw [Function.iterate_succ_apply', renderNextUrl_ptr, ih, Nat.add_assoc]

@[simp] theorem iterate_renderNextUrl_resolved (M k : Nat) (s : RunState) :
    ((renderNextUrl M)^[k] s).resolved = s.resolved := by
  induction k with
  | zero => rfl
  | succ k ih => rw [Function.iterate_succ_apply', renderNextUrl_resolved, ih]

@[simp] theorem iterate_renderNextUrl_savedCount (M k : Nat) (s : RunState) :
    ((renderNextUrl M)^[k] s).savedCount = s.savedCount := by
  induction k with
  | zero => rfl
  | succ k ih => rw [Function.iterate_succ_apply', renderNextUrl_savedCount, ih]

@[simp] theorem iterate_renderNextUrl_pagesRendered (M k : Nat) (s : RunState) :
    ((renderNextUrl M)^[k] s).pagesRendered = s.pagesRendered := by
  induction k with
  | zero => rfl
  | succ k ih =>
    rw [Function.iterate_succ_apply', renderNextUrl_pagesRendered, ih]

@[simp] theorem iterate_renderNextUrl_warmConsumed (M k : Nat) (s : RunState) :
    ((renderNextUrl M)^[k] s).warmConsumed = s.warmConsumed := by
  induction k with
  | zero => rfl
  | succ k ih =>
    rw [Function.iterate_succ_apply', renderNextUrl_warmConsumed, ih]

@[simp] theorem iterate_renderNextUrl_doneEmitted (M k : Nat) (s : RunState) :
    ((renderNextUrl M)^[k] s).doneEmitted = s.doneEmitted := by
  induction k with
  | zero => rfl
  | succ k ih =>
    rw [Function.iterate_succ_apply', renderNextUrl_doneEmitted, ih]

theorem iterate_renderNextUrl_log (M k : Nat) (s : RunState)
    (h : s.dispatchLog = List.range (min s.ptr M)) :
    ((renderNextUrl M)^[k] s).dispatchLog = List.range (min (s.ptr + k) M) := by
  induction k with
  | zero => simpa using h
  | succ k ih =>
    rw [Function.iterate_succ_apply']
    have step := renderNextUrl_log M ((renderNextUrl M)^[k] s)
      (by rw [ih, iterate_renderNextUrl_ptr])
    rw [step, iterate_renderNextUrl_ptr, Nat.add_assoc]

@[simp] theorem warmRelease_resolved (M N : Nat) (s : RunState) :
    (warmRelease M N s).resolved = s.resolved := by
  unfold warmRelease; split
  · rfl
  · simp

@[simp] theorem warmRelease_savedCount (M N : Nat) (s : RunState) :
    (warmRelease M N s).savedCount = s.savedCount := by
  unfold warmRelease; split
  · rfl
  · simp

@[simp] theorem warmRelease_pagesRendered (M N : Nat) (s : RunState) :
    (warmRelease M N s).pagesRendered = s.pagesRendered := by
  unfold warmRelease; split
  · rfl
  · simp

@[simp] theorem warmRelease_doneEmitted (M N : Nat) (s : RunState) :
    (warmRelease M N s).doneEmitted = s.doneEmitted := by
  unfold warmRelease; split
  · rfl
  · simp

@[simp] theorem resolveStep_resolved (M N i : Nat) (s : RunState) :
    (resolveStep M N i s).resolved = insert i s.resolved := by
  unfold resolveStep recordSaved
  rw [renderNextUrl_resolved]
  simp

@[simp] theorem resolveStep_savedCount (M N i : Nat) (s : RunState) :
    (resolveStep M N i s).savedCount = s.savedCount + 1 := by
  unfold resolveStep recordSaved
  rw [renderNextUrl_savedCount]
  simp

@[simp] theorem resolveStep_pagesRendered (M N i : Nat) (s : RunState) :
    (resolveStep M N i s).pagesRendered = s.pagesRendered + 1 := by
  unfold resolveStep recordSaved
  rw [renderNextUrl_pagesRendered]
  simp

@[simp] theorem resolveStep_doneEmitted (M N i : Nat) (s : RunState) :
    (resolveStep M N i s).doneEmitted =
      (s.doneEmitted || decide (s.savedCount + 1 = M)) := by
  unfold resolveStep recordSaved
  rw [renderNextUrl_doneEmitted]
  simp

theorem resolveStep_card (M N i : Nat) (s : RunState) (hi : i ∉ s.resolved) :
    (resolveStep M N i s).resolved.card = s.resolved.card + 1 := by
  rw [resolveStep_resolved, Finset.card_insert_of_not_mem hi]

/-! ### The scheduler invariant -/

/-- Everything that holds of every reachable scheduler state: the
dispatch log lists exactly the indices below the dispatch count in
order, the saved and report counters track the resolved set, only
dispatched tasks resolve, before the first resolution the run is still
in its warm-up shape, at most `N` tasks are ever in flight, an
unfinished run always has at least one task in flight, and the
completion branch has run exactly when every task of a nonempty list
has resolved. -/
structure Inv (M N : Nat) (s : RunState) : Prop where
  ptr_pos : 1 ≤ s.ptr
  log_eq : s.dispatchLog = List.range (dispatchCount M s)
  saved_eq : s.savedCount = s.resolved.card
  rendered_eq : s.pagesRendered = s.resolved.card
  resolved_sub : s.resolved ⊆ Finset.range (dispatchCount M s)
  warm_init : s.warmConsumed = false → s.ptr = 1 ∧ s.resolved = ∅
  budget : dispatchCount M s ≤ s.resolved.card + N
  refillable : s.resolved.card < M → s.resolved.card < dispatchCount M s
  done_iff : s.doneEmitted = true ↔ 1 ≤ M ∧ s.resolved.card = M
  card_le : s.resolved.card ≤ M

theorem initState_eq (M : Nat) :
    initState M =
      if 0 < M then ⟨1, ∅, 0, 0, false, false, [0]⟩
      else ⟨1, ∅, 0, 0, false, false, []⟩ := by
  unfold initState renderNextUrl
  split <;> rfl

theorem inv_init (M N : Nat) (hN : 1 ≤ N) : Inv M N (initState M) := by
  rw [initState_eq]
  by_cases hM : 0 < M
  · rw [if_pos hM]
    refine ⟨le_refl 1, ?_, by simp, by simp, by simp, fun _ => ⟨rfl, rfl⟩,
      ?_, ?_, ?_, by simp⟩
    · simp only [dispatchCount]
      rw [Nat.min_eq_left hM]
      decide
    · simp only [dispatchCount, Finset.card_empty]
      omega
    · simp only [dispatchCount, Finset.card_empty]
      omega
    · simp only [Finset.card_empty]
      constructor
      · intro h
        exact absurd h (by simp)
      · intro h
        omega
  · have hM0 : M = 0 := by omega
    subst hM0
    rw [if_neg hM]
    refine ⟨le_refl 1, by decide, by simp, by simp, by simp,
      fun _ => ⟨rfl, rfl⟩, ?_, by simp, by simp, by simp⟩
    simp only [dispatchCount, Finset.card_empty]
    omega

/-- A state in which every task has resolved admits no further valid
resolution, so any state about to take a step is not yet complete. -/
theorem step_not_full {M N : Nat} {s : RunState} {i : Nat}
    (hs : Inv M N s) (hv : ValidResolve M s i) :
    s.resolved.card < M ∧ s.doneEmitted = false := by
  obtain ⟨hvd, hvn⟩ := hv
  have hdc : dispatchCount M s ≤ M := Nat.min_le_right _ _
  have hcard : s.resolved.card < M := by
    rcases Nat.lt_or_ge s.resolved.card M with h | h
    · exact h
    · exfalso
      have hle : s.resolved.card ≤ dispatchCount M s := by
        have := Finset.card_le_card hs.resolved_sub
        simpa [Finset.card_range] using this
      have hdceq : dispatchCount M s = M := by omega
      have heq : s.resolved = Finset.range (dispatchCount M s) :=
        Finset.eq_of_subset_of_card_le hs.resolved_sub
          (by simp [Finset.card_range]; omega)
      have : i ∈ s.resolved := by
        rw [heq]
        exact Finset.mem_range.mpr hvd
      exact hvn this
  refine ⟨hcard, ?_⟩
  by_contra h
  have : s.doneEmitted = true := by
    cases hde : s.doneEmitted
    · exact absurd hde h
    · rfl
  have := hs.done_iff.mp this
  omega

theorem inv_step {M N : Nat} {s : RunState} {i : Nat} (hN : 1 ≤ N)
    (hs : Inv M N s) (hv : ValidResolve M s i) :
    Inv M N (resolveStep M N i s) := by
  obtain ⟨hcard, hdone⟩ := step_not_full hs hv
  obtain ⟨hvd, hvn⟩ := hv
  have hcardstep : (resolveStep M N i s).resolved.card = s.resolved.card + 1 :=
    resolveStep_card M N i s hvn
  by_cases hw : s.warmConsumed = true
  · -- steady state: the once-handler has already fired
    have hwr : warmRelease M N s = s := by
      unfold warmRelease
      rw [if_pos hw]
    have hptr : (resolveStep M N i s).ptr = s.ptr + 1 := by
      unfold resolveStep
      rw [renderNextUrl_ptr, recordSaved_ptr, hwr]
    have hdc : dispatchCount M (resolveStep M N i s) = min (s.ptr + 1) M := by
      simp [dispatchCount, hptr]
    have hdcmono : dispatchCount M s ≤ dispatchCount M (resolveStep M N i s) := by
      simp only [dispatchCount, hptr]
      omega
    have hlog : (resolveStep M N i s).dispatchLog =
        List.range (min (s.ptr + 1) M) := by
      unfold resolveStep
      have hrl : (recordSaved M i (warmRelease M N s)).dispatchLog =
          List.range (min (recordSaved M i (warmRelease M N s)).ptr M) := by
        rw [recordSaved_log, recordSaved_ptr, hwr]
        exact hs.log_eq
      rw [renderNextUrl_log M _ hrl, recordSaved_ptr, hwr]
    have hwarm : (resolveStep M N i s).warmConsumed = true := by
      unfold resolveStep
      rw [renderNextUrl_warmConsumed, recordSaved_warmConsumed, hwr, hw]
    refine ⟨?_, ?_, ?_, ?_, ?_, ?_, ?_, ?_, ?_, ?_⟩
    · rw [hptr]; omega
    · rw [hlog, hdc]
    · rw [resolveStep_savedCount, hcardstep, hs.saved_eq]
    · rw [resolveStep_pagesRendered, hcardstep, hs.rendered_eq]
    · rw [resolveStep_resolved, hdc]
      refine Finset.insert_subset_iff.mpr ⟨?_, ?_⟩
      · refine Finset.mem_range.mpr ?_
        simp only [dispatchCount] at hvd
        omega
      · refine hs.resolved_sub.trans (Finset.range_subset.mpr ?_)
        simp only [dispatchCount]
        omega
    · intro h
      rw [hwarm] at h
      exact absurd h (by simp)
    · rw [hcardstep, hdc]
      have := hs.budget
      simp only [dispatchCount] at this
      omega
    · rw [hcardstep, hdc]
      intro h
      have := hs.refillable (by omega)
      simp only [dispatchCount] at this
      omega
    · rw [resolveStep_doneEmitted, hcardstep, hdone, hs.saved_eq]
      constructor
      · intro h
        simp at h
        omega
      · intro h
        simp
        omega
    · rw [hcardstep]
      omega
  · -- warm-up resolution: the once-handler fires and releases N - 1 slots
    have hwf : s.warmConsumed = false := by
      cases h : s.warmConsumed
      · rfl
      · exact absurd h hw
    obtain ⟨hp1, hres⟩ := hs.warm_init hwf
    have hM1 : 1 ≤ M := by
      simp only [dispatchCount, hp1] at hvd
      omega
    have hi0 : i = 0 := by
      simp only [dispatchCount, hp1] at hvd
      omega
    have hcard0 : s.resolved.card = 0 := by rw [hres]; rfl
    have hwr : warmRelease M N s = (renderNextUrl M)^[N - 1] (setWarm s) := by
      unfold warmRelease
      rw [if_neg (by simp [hwf])]
    have hptr : (resolveStep M N i s).ptr = N + 1 := by
      unfold resolveStep
      rw [renderNextUrl_ptr, recordSaved_ptr, hwr, iterate_renderNextUrl_ptr,
        setWarm_ptr, hp1]
      omega
    have hdc : dispatchCount M (resolveStep M N i s) = min (N + 1) M := by
      simp [dispatchCount, hptr]
    have hlog : (resolveStep M N i s).dispatchLog =
        List.range (min (N + 1) M) := by
      unfold resolveStep
      have hbase : (setWarm s).dispatchLog =
          List.range (min (setWarm s).ptr M) := by
        rw [setWarm_log, setWarm_ptr]
        exact hs.log_eq
      have hitl := iterate_renderNextUrl_log M (N - 1) (setWarm s) hbase
      have hrl : (recordSaved M i (warmRelease M N s)).dispatchLog =
          List.range (min (recordSaved M i (warmRelease M N s)).ptr M) := by
        rw [recordSaved_log, recordSaved_ptr, hwr, hitl,
          iterate_renderNextUrl_ptr]
      rw [renderNextUrl_log M _ hrl, recordSaved_ptr, hwr,
        iterate_renderNextUrl_ptr, setWarm_ptr, hp1]
      have heq : 1 + (N - 1) + 1 = N + 1 := by omega
      rw [heq]
    refine ⟨?_, ?_, ?_, ?_, ?_, ?_, ?_, ?_, ?_, ?_⟩
    · rw [hptr]; omega
    · rw [hlog, hdc]
    · rw [resolveStep_savedCount, hcardstep, hs.saved_eq]
    · rw [resolveStep_pagesRendered, hcardstep, hs.rendered_eq]
    · rw [resolveStep_resolved, hdc, hres, hi0]
      intro x hx
      rw [Finset.mem_insert] at hx
      rcases hx with h | h
      · subst h
        exact Finset.mem_range.mpr (by omega)
      · exact absurd h (Finset.not_mem_empty x)
    · intro h
      exfalso
      have hwt : (resolveStep M N i s).warmConsumed = true := by
        unfold resolveStep
        rw [renderNextUrl_warmConsumed, recordSaved_warmConsumed, hwr,
          iterate_renderNextUrl_warmConsumed, setWarm_warmConsumed]
      rw [hwt] at h
      exact absurd h (by simp)
    · rw [hcardstep, hdc, hcard0]
      omega
    · rw [hcardstep, hdc, hcard0]
      intro h
      omega
    · rw [resolveStep_doneEmitted, hcardstep, hdone, hs.saved_eq, hcard0]
      constructor
      · intro h
        simp at h
        omega
      · intro h
        simp
        omega
    · rw [hcardstep, hcard0]
      omega

/-- The master invariant holds of every reachable state. -/
theorem inv_reachable {M N : Nat} (hN : 1 ≤ N) {s : RunState}
    (hr : Reachable M N s) : Inv M N s := by
  induction hr with
  | init => exact inv_init M N hN
  | step hr hv ih => exact inv_step hN ih hv

/-- Before the first resolution the run is still in the prologue
state: every step inserts into the resolved set, so an empty resolved
set pins the state to `initState`. -/
theorem reachable_resolved_empty {M N : Nat} {s : RunState}
    (hr : Reachable M N s) (he : s.resolved = ∅) : s = initState M := by
  cases hr with
  | init => rfl
  | step hr' hv =>
    exfalso
    rw [resolveStep_resolved] at he
    exact Finset.insert_ne_empty _ _ he

/-- An unfinished reachable state always has an in-flight task that
can resolve. -/
theorem exists_valid_resolve {M N : Nat} {s : RunState} (hN : 1 ≤ N)
    (hr : Reachable M N s) (hc : s.resolved.card < M) :
    ∃ i, ValidResolve M s i := by
  have hs := inv_reachable hN hr
  have hlt := hs.refillable hc
  have hns : ¬ (Finset.range (dispatchCount M s) ⊆ s.resolved) := by
    intro h
    have := Finset.card_le_card h
    rw [Finset.card_range] at this
    omega
  obtain ⟨i, hi, hni⟩ := Finset.not_subset.mp hns
  exact ⟨i, Finset.mem_range.mp hi, hni⟩

/-- Any reachable state can be driven on to a completed run. -/
theorem reach_done_from {M N : Nat} (hN : 1 ≤ N) (hM : 1 ≤ M) :
    ∀ (k : Nat) (s : RunState), Reachable M N s →
      M - s.resolved.card ≤ k →
      ∃ t, Reachable M N t ∧ t.doneEmitted = true := by
  intro k
  induction k with
  | zero =>
    intro s hr hk
    have hs := inv_reachable hN hr
    have hcard : s.resolved.card = M := by
      have := hs.card_le
      omega
    exact ⟨s, hr, hs.done_iff.mpr ⟨hM, hcard⟩⟩
  | succ k ih =>
    intro s hr hk
    have hs := inv_reachable hN hr
    by_cases hc : s.resolved.card = M
    · exact ⟨s, hr, hs.done_iff.mpr ⟨hM, hc⟩⟩
    · have hlt : s.resolved.card < M := by
        have := hs.card_le
        omega
      obtain ⟨i, hv⟩ := exists_valid_resolve hN hr hlt
      have hcs : (resolveStep M N i s).resolved.card = s.resolved.card + 1 :=
        resolveStep_card M N i s hv.2
      refine ih (resolveStep M N i s) (Reachable.step hr hv) ?_
      omega

/-- Some interleaving of any nonempty run reaches the completion
branch. -/
theorem reach_done (M N : Nat) (hN : 1 ≤ N) (hM : 1 ≤ M) :
    ∃ t, Reachable M N t ∧ t.doneEmitted = true :=
  reach_done_from hN hM (M - (initState M).resolved.card) (initState M)
    Reachable.init (le_refl _)

/-! ### Path-mapping lemmas -/

theorem joinSegs_cons_cons (a b : String) (rest : List String) :
    joinSegs (a :: b :: rest) = a ++ "/" ++ joinSegs (b :: rest) := rfl

theorem strEndsWith_appendLeft (a s x : String)
    (h : strEndsWith s x = true) : strEndsWith (a ++ s) x = true := by
  simp only [strEndsWith, decide_eq_true_eq] at h ⊢
  rw [String.data_append]
  exact h.trans (List.suffix_append a.data s.data)

theorem strEndsWith_trans (s x y : String)
    (h1 : strEndsWith s x = true) (h2 : strEndsWith x y = true) :
    strEndsWith s y = true := by
  simp only [strEndsWith, decide_eq_true_eq] at h1 h2 ⊢
  exact h2.trans h1

theorem joinSegs_endsWith (l : List String) (x : String) :
    strEndsWith (joinSegs (l ++ [x])) x = true := by
  induction l with
  | nil =>
    simp only [List.nil_append, joinSegs, strEndsWith, decide_eq_true_eq]
    exact List.suffix_refl x.data
  | cons a l ih =>
    rw [List.cons_append]
    cases hl : l ++ [x] with
    | nil => exact absurd hl (by simp)
    | cons y ys =>
      rw [hl] at ih
      rw [joinSegs_cons_cons]
      exact strEndsWith_appendLeft _ _ _ ih

theorem pathJoin_pair_endsWith (p : String) :
    strEndsWith (pathJoin [p, "index.html"]) ".html" = true := by
  unfold pathJoin
  have h1 : ([p, "index.html"].flatMap (fun q => splitSlash q)) =
      splitSlash p ++ ["index.html"] := by
    have : splitSlash "index.html" = ["index.html"] := by decide
    simp [this]
  rw [h1, List.filter_append]
  have h2 : (["index.html"].filter (fun s => s != "")) = ["index.html"] := by
    decide
  rw [h2]
  refine strEndsWith_trans _ "index.html" _ ?_ (by decide)
  exact joinSegs_endsWith _ _

theorem htmlCanon_endsWith (p : String) :
    strEndsWith (htmlCanon p) ".html" = true := by
  unfold htmlCanon
  by_cases h : strEndsWith p ".html" = true
  · rw [if_pos h]
    exact h
  · rw [if_neg h]
    exact pathJoin_pair_endsWith p

theorem htmlCanon_of_endsWith (p : String)
    (h : strEndsWith p ".html" = true) : htmlCanon p = p := by
  unfold htmlCanon
  rw [if_pos h]

/-- The canonicalisation step is idempotent: a canonicalised path
already carries the `.html` suffix, so a second pass returns it
unchanged. -/
theorem htmlCanon_idem (p : String) :
    htmlCanon (htmlCanon p) = htmlCanon p :=
  htmlCanon_of_endsWith _ (htmlCanon_endsWith p)

theorem mapOutPath_endsWith (f r : String) :
    strEndsWith (mapOutPath f r) ".html" = true :=
  htmlCanon_endsWith _

theorem not_gz_of_html (p : String) (h : strEndsWith p ".html" = true) :
    strEndsWith p ".html.gz" = false := by
  cases hgz : strEndsWith p ".html.gz"
  · rfl
  · exfalso
    simp only [strEndsWith, decide_eq_true_eq] at h hgz
    rcases List.prefix_or_prefix_of_prefix
        (List.reverse_prefix.mpr h) (List.reverse_prefix.mpr hgz) with h3 | h3
    · exact absurd h3 (by decide)
    · exact absurd h3 (by decide)

theorem swapToJson_json (p : String) (h : strEndsWith p ".html" = true) :
    strEndsWith (swapToJson p) "json" = true := by
  unfold swapToJson
  rw [if_neg (by rw [not_gz_of_html p h]; simp), if_pos h]
  exact strEndsWith_appendLeft _ _ _ (by decide)

/-! ### Step characterisation lemmas shared by the claims -/

theorem warmRelease_warm (M N : Nat) (s : RunState)
    (hw : s.warmConsumed = true) : warmRelease M N s = s := by
  unfold warmRelease
  rw [if_pos hw]

theorem warmRelease_cold (M N : Nat) (s : RunState)
    (hw : s.warmConsumed = false) :
    warmRelease M N s = (renderNextUrl M)^[N - 1] (setWarm s) := by
  unfold warmRelease
  rw [if_neg (by simp [hw])]

theorem resolveStep_ptr_warm (M N i : Nat) (s : RunState)
    (hw : s.warmConsumed = true) : (resolveStep M N i s).ptr = s.ptr + 1 := by
  unfold resolveStep
  rw [renderNextUrl_ptr, recordSaved_ptr, warmRelease_warm M N s hw]

theorem resolveStep_ptr_cold (M N i : Nat) (s : RunState)
    (hw : s.warmConsumed = false) :
    (resolveStep M N i s).ptr = s.ptr + (N - 1) + 1 := by
  unfold resolveStep
  rw [renderNextUrl_ptr, recordSaved_ptr, warmRelease_cold M N s hw,
    iterate_renderNextUrl_ptr, setWarm_ptr]

theorem resolveStep_log_warm (M N i : Nat) (s : RunState)
    (hw : s.warmConsumed = true)
    (hlog : s.dispatchLog = List.range (min s.ptr M)) :
    (resolveStep M N i s).dispatchLog = List.range (min (s.ptr + 1) M) := by
  unfold resolveStep
  have hrl : (recordSaved M i (warmRelease M N s)).dispatchLog =
      List.range (min (recordSaved M i (warmRelease M N s)).ptr M) := by
    rw [recordSaved_log, recordSaved_ptr, warmRelease_warm M N s hw]
    exact hlog
  rw [renderNextUrl_log M _ hrl, recordSaved_ptr, warmRelease_warm M N s hw]

theorem resolveStep_log_cold (M N i : Nat) (s : RunState) (hN : 1 ≤ N)
    (hw : s.warmConsumed = false) (hp1 : s.ptr = 1)
    (hlog : s.dispatchLog = List.range (min s.ptr M)) :
    (resolveStep M N i s).dispatchLog = List.range (min (N + 1) M) := by
  unfold resolveStep
  have hbase : (setWarm s).dispatchLog =
      List.range (min (setWarm s).ptr M) := by
    rw [setWarm_log, setWarm_ptr]
    exact hlog
  have hitl := iterate_renderNextUrl_log M (N - 1) (setWarm s) hbase
  have hrl : (recordSaved M i (warmRelease M N s)).dispatchLog =
      List.range (min (recordSaved M i (warmRelease M N s)).ptr M) := by
    rw [recordSaved_log, recordSaved_ptr, warmRelease_cold M N s hw, hitl,
      iterate_renderNextUrl_ptr]
  rw [renderNextUrl_log M _ hrl, recordSaved_ptr, warmRelease_cold M N s hw,
    iterate_renderNextUrl_ptr, setWarm_ptr, hp1]
  have heq : 1 + (N - 1) + 1 = N + 1 := by omega
  rw [heq]

/-! ## Claims about the orchestrator -/

/-- C1: for every input list of size `M` (after any maximum-pages
truncation) and budget `N` with `1 ≤ N ≤ M`, the orchestrator
dispatches each of the `M` tasks exactly once (the dispatch log of any
reachable state is an initial segment of the index sequence, without
duplicates, and equals the full sequence once done), each task
resolves exactly once with exactly one `saved` event and one report
update (the saved and report counters equal the size of the resolved
set, which is the full index set at completion), and some run indeed
reaches the completion branch. -/
theorem C1_lifecycle_exactly_once (M N : Nat) (hN : 1 ≤ N) (hMN : N ≤ M) :
    (∀ (urls : List String) (n : Nat),
        (truncateUrls (some n) urls).length = min n urls.length)
    ∧ (∀ s, Reachable M N s →
        s.dispatchLog = List.range (dispatchCount M s)
        ∧ s.dispatchLog.Nodup
        ∧ dispatchCount M s ≤ M
        ∧ s.savedCount = s.resolved.card
        ∧ s.pagesRendered = s.resolved.card
        ∧ (s.doneEmitted = true →
            dispatchCount M s = M ∧ s.resolved = Finset.range M
            ∧ s.savedCount = M ∧ s.pagesRendered = M
            ∧ s.dispatchLog = List.range M))
    ∧ (∃ t, Reachable M N t ∧ t.doneEmitted = true) := by
  have hM : 1 ≤ M := le_trans hN hMN
  refine ⟨?_, ?_, reach_done M N hN hM⟩
  · intro urls n
    simp [truncateUrls]
  · intro s hr
    have hinv := inv_reachable hN hr
    have hdcM : dispatchCount M s ≤ M := Nat.min_le_right _ _
    refine ⟨hinv.log_eq, ?_, hdcM, hinv.saved_eq, hinv.rendered_eq, ?_⟩
    · rw [hinv.log_eq]
      exact List.nodup_range _
    · intro hd
      have hcard := (hinv.done_iff.mp hd).2
      have hle : s.resolved.card ≤ dispatchCount M s := by
        have := Finset.card_le_card hinv.resolved_sub
        simpa [Finset.card_range] using this
      have hdceq : dispatchCount M s = M := by omega
      have hres : s.resolved = Finset.range M := by
        have heq := Finset.eq_of_subset_of_card_le hinv.resolved_sub
          (by rw [Finset.card_range]; omega)
        rw [heq, hdceq]
      exact ⟨hdceq, hres, by rw [hinv.saved_eq, hcard],
        by rw [hinv.rendered_eq, hcard], by rw [hinv.log_eq, hdceq]⟩

theorem C1_lifecycle_exactly_once_witness :
    ∃ t, Reachable 1 1 t ∧ t.doneEmitted = true :=
  (C1_lifecycle_exactly_once 1 1 (by omega) (by omega)).2.2

/-- C2: for budgets `N > 1` (with at least `N` tasks), the first
dispatched task is index 0, nothing else is dispatched while the first
task is unresolved (a reachable state with an empty resolved set has
dispatch log `[0]`), and the resolution of the first task releases the
remaining `N - 1` slots — the once-handler alone extends the dispatch
log to the first `N` indices, and the full resolution step (release
plus the chain refill) to the first `min (N + 1) M`. -/
theorem C2_warmup_barrier (M N : Nat) (hN : 1 < N) (hMN : N ≤ M) :
    (initState M).dispatchLog = [0]
    ∧ (∀ s, Reachable M N s → s.resolved = ∅ → s.dispatchLog = [0])
    ∧ (∀ s, Reachable M N s → s.resolved = ∅ →
        (warmRelease M N s).dispatchLog = List.range N
        ∧ (resolveStep M N 0 s).dispatchLog = List.range (min (N + 1) M)) := by
  have hM : 1 ≤ M := by omega
  have hinit_log : (initState M).dispatchLog = [0] := by
    rw [initState_eq, if_pos (by omega)]
  refine ⟨hinit_log, ?_, ?_⟩
  · intro s hr he
    rw [reachable_resolved_empty hr he, hinit_log]
  · intro s hr he
    have hse := reachable_resolved_empty hr he
    subst hse
    have hw : (initState M).warmConsumed = false := by
      rw [initState_eq]
      split <;> rfl
    have hp : (initState M).ptr = 1 := by
      rw [initState_eq]
      split <;> rfl
    have hlog : (initState M).dispatchLog =
        List.range (min (initState M).ptr M) :=
      (inv_init M N (by omega)).log_eq
    constructor
    · rw [warmRelease_cold M N _ hw]
      have hbase : (setWarm (initState M)).dispatchLog =
          List.range (min (setWarm (initState M)).ptr M) := by
        rw [setWarm_log, setWarm_ptr]
        exact hlog
      rw [iterate_renderNextUrl_log M (N - 1) _ hbase, setWarm_ptr, hp]
      have h1 : 1 + (N - 1) = N := by omega
      rw [h1, Nat.min_eq_left hMN]
    · exact resolveStep_log_cold M N 0 (initState M) (by omega) hw hp hlog

theorem C2_warmup_barrier_witness :
    (warmRelease 3 2 (initState 3)).dispatchLog = List.range 2
    ∧ (resolveStep 3 2 0 (initState 3)).dispatchLog =
        List.range (min (2 + 1) 3) :=
  (C2_warmup_barrier 3 2 (by omega) (by omega)).2.2 (initState 3)
    Reachable.init rfl

/-- C3 as stated is refuted: at the resolution of the warm-up task
with `M = 3`, `N = 2`, pending tasks remain, yet the dispatch count
grows by two (the released slot plus the chain refill), not by exactly
one. -/
theorem C3_counterexample :
    Reachable 3 2 (initState 3)
    ∧ ValidResolve 3 (initState 3) 0
    ∧ dispatchCount 3 (initState 3) < 3
    ∧ dispatchCount 3 (resolveStep 3 2 0 (initState 3)) = 3
    ∧ dispatchCount 3 (resolveStep 3 2 0 (initState 3)) ≠
        dispatchCount 3 (initState 3) + 1 :=
  ⟨Reachable.init, by decide, by decide, by decide, by decide⟩

/-- C3 amended: at every reachable state `in_flight ≤ N`; after the
warm-up resolution has fired (the once-handler is disarmed), every
resolution grows the dispatch count by exactly one while pending tasks
remain; the warm-up resolution itself grows it to `min (N + 1) M`;
and tasks are dispatched in input-list order (the dispatch log is
always the initial index segment). -/
theorem C3_amended_inflight_and_refill (M N : Nat) (hN : 1 ≤ N) :
    (∀ s, Reachable M N s → inFlight M s ≤ N)
    ∧ (∀ s i, Reachable M N s → ValidResolve M s i →
        s.warmConsumed = true → dispatchCount M s < M →
        dispatchCount M (resolveStep M N i s) = dispatchCount M s + 1)
    ∧ (∀ s i, Reachable M N s → ValidResolve M s i →
        s.warmConsumed = false →
        dispatchCount M (resolveStep M N i s) = min (N + 1) M)
    ∧ (∀ s, Reachable M N s → s.dispatchLog = List.range (dispatchCount M s)) := by
  refine ⟨?_, ?_, ?_, ?_⟩
  · intro s hr
    have hinv := inv_reachable hN hr
    have := hinv.budget
    unfold inFlight
    omega
  · intro s i hr hv hw hp
    simp only [dispatchCount, resolveStep_ptr_warm M N i s hw]
    simp only [dispatchCount] at hp
    omega
  · intro s i hr hv hw
    have hinv := inv_reachable hN hr
    obtain ⟨hp1, -⟩ := hinv.warm_init hw
    simp only [dispatchCount, resolveStep_ptr_cold M N i s hw, hp1]
    have heq : 1 + (N - 1) + 1 = N + 1 := by omega
    rw [heq]
  · intro s hr
    exact (inv_reachable hN hr).log_eq

theorem C3_amended_inflight_and_refill_witness :
    inFlight 3 (initState 3) ≤ 1
    ∧ dispatchCount 3 (resolveStep 3 1 1 (resolveStep 3 1 0 (initState 3))) =
        dispatchCount 3 (resolveStep 3 1 0 (initState 3)) + 1 := by
  refine ⟨(C3_amended_inflight_and_refill 3 1 (by omega)).1 _ Reachable.init, ?_⟩
  exact (C3_amended_inflight_and_refill 3 1 (by omega)).2.1
    (resolveStep 3 1 0 (initState 3)) 1
    (Reachable.step Reachable.init (by decide))
    (by decide) (by decide) (by decide)

/-- C10: with an empty resolved input list (for instance a sitemap
yielding no URLs, or a maximum-pages cap of 0 truncating everything)
the run never reaches completion: the only reachable state is the
prologue state, in which the completion branch has not run (the
browser is never closed and the final report is never emitted) and no
`saved` event ever fires, because the completion check lives in the
`saved` handler and no task is ever dispatched. -/
theorem C10_empty_list_never_completes (N : Nat) :
    (∀ urls : List String, truncateUrls (some 0) urls = [])
    ∧ (∀ s, Reachable 0 N s → s = initState 0)
    ∧ (initState 0).doneEmitted = false
    ∧ (initState 0).savedCount = 0
    ∧ dispatchCount 0 (initState 0) = 0 := by
  refine ⟨fun urls => rfl, ?_, rfl, rfl, rfl⟩
  intro s hr
  cases hr with
  | init => rfl
  | step hr' hv =>
    exfalso
    have hlt := hv.1
    simp only [dispatchCount] at hlt
    omega

theorem C10_empty_list_never_completes_witness :
    initState 0 = initState 0 ∧ (initState 0).doneEmitted = false :=
  ⟨(C10_empty_list_never_completes 5).2.1 (initState 0) Reachable.init,
   (C10_empty_list_never_completes 5).2.2.1⟩

/-! ## Claims about the request filter, renderer and output pipeline -/

/-- C4: the filter decision is a pure function of the request and the
configuration (it is a Lean function of exactly those arguments), it
allows a request exactly when the resource kind is in the allow set or
the path ends in an allow-listed extension and the request is not
force-denied (block-pattern match, `.woff2` path, or blocked host),
and a block-pattern match denies regardless of allow-list
membership. -/
theorem C4_request_filter_policy (cfg : FilterConfig) (req : SubRequest) :
    (filterDecision cfg req = true ↔
      ((typeAllowlist.contains req.resourceType = true
          ∨ strEndsWith req.pathname ".js" = true
          ∨ strEndsWith req.pathname ".css" = true)
        ∧ ¬ (cfg.blockPatterns.any (fun p => p req.url) = true
          ∨ strEndsWith req.pathname ".woff2" = true
          ∨ cfg.blockHosts.contains req.host = true)))
    ∧ (cfg.blockPatterns.any (fun p => p req.url) = true →
        filterDecision cfg req = false) := by
  constructor
  · simp only [filterDecision, isAllowed, isBlocked, Bool.and_eq_true,
      Bool.or_eq_true, Bool.not_eq_true', Bool.or_eq_false_iff,
      Bool.eq_false_iff, ne_eq]
    tauto
  · intro h
    simp [filterDecision, isBlocked, h]

def c4cfg : FilterConfig :=
  ⟨[fun u => strEndsWith u "/ads.js"], ["blocked.example.com"]⟩

def c4req : SubRequest :=
  ⟨"https://cdn.example.com/ads.js", "/ads.js", "cdn.example.com",
   ResourceType.script⟩

theorem C4_request_filter_policy_witness :
    c4cfg.blockPatterns.any (fun p => p c4req.url) = true
    ∧ filterDecision c4cfg c4req = false :=
  ⟨by decide, (C4_request_filter_policy c4cfg c4req).2 (by decide)⟩

/-- C5: the output path mapping is total (a Lean function on all
strings) and its HTML canonicalisation step is idempotent; the
identifier path `/` maps to `index.html`, `/blog` to
`blog/index.html`, `/blog.html` to `blog.html`, all under the fixed
`rendered` root, and all three gain a `dev/` prefix when the `dev`
output sub-folder is configured. -/
theorem C5_path_mapping :
    (∀ p : String, htmlCanon (htmlCanon p) = htmlCanon p)
    ∧ mapOutPath (ensureLeadingSlash "") "/" = "rendered/index.html"
    ∧ mapOutPath (ensureLeadingSlash "") "/blog" = "rendered/blog/index.html"
    ∧ mapOutPath (ensureLeadingSlash "") "/blog.html" = "rendered/blog.html"
    ∧ mapOutPath (ensureLeadingSlash "dev") "/" = "rendered/dev/index.html"
    ∧ mapOutPath (ensureLeadingSlash "dev") "/blog" =
        "rendered/dev/blog/index.html"
    ∧ mapOutPath (ensureLeadingSlash "dev") "/blog.html" =
        "rendered/dev/blog.html" :=
  ⟨htmlCanon_idem, by decide, by decide, by decide, by decide, by decide,
   by decide⟩

/-- C7: the render operation returns html present exactly when
navigation resolved with a status below 300 and a configured selector
wait succeeded; on every outcome, including all failures, the page is
closed, and the operation returns normally (it is a total function in
this model, mirroring the try/catch that stops any exception short of
the orchestrator). -/
theorem C7_render_failure_isolation (env : RenderEnv) (cfg : WaitConfig) :
    (fetchPage env cfg).2 = true
    ∧ ((fetchPage env cfg).1.isSome = true ↔
        ((∃ st, env.nav = NavResult.resolved st ∧ st < 300)
          ∧ (cfg.selector.isSome = true → env.selectorFound = true))) := by
  refine ⟨rfl, ?_⟩
  have hfst : (fetchPage env cfg).1 = catchHtml (fetchPageTry cfg env env.nav) :=
    rfl
  rw [hfst]
  cases hn : env.nav with
  | navError =>
    simp [fetchPageTry, catchHtml]
  | resolved st =>
    simp only [fetchPageTry]
    by_cases hc : (cfg.selector.isSome && !env.selectorFound) = true
    · rw [if_pos hc]
      simp only [Bool.and_eq_true, Bool.not_eq_true'] at hc
      simp only [catchHtml, Option.isSome_none, Bool.false_eq_true,
        false_iff, not_and]
      intro hex
      intro hall
      have := hall hc.1
      rw [hc.2] at this
      exact absurd this (by simp)
    · rw [if_neg hc]
      simp only [Bool.and_eq_true, Bool.not_eq_true'] at hc
      by_cases hlt : st < 300
      · rw [if_pos hlt]
        simp only [catchHtml, Option.isSome_some, true_iff]
        refine ⟨⟨st, rfl, hlt⟩, ?_⟩
        intro hsel
        cases hsf : env.selectorFound
        · exact absurd ⟨hsel, hsf⟩ hc
        · rfl
      · rw [if_neg hlt]
        simp only [catchHtml, Option.isSome_none, Bool.false_eq_true,
          false_iff, not_and]
        rintro ⟨st2, hst2, hlt2⟩
        exfalso
        injection hst2 with heq
        subst heq
        exact absurd hlt2 hlt

def c7env : RenderEnv := ⟨NavResult.resolved 200, true, "<html>ok</html>"⟩

def c7cfg : WaitConfig := ⟨none, 0⟩

theorem C7_render_failure_isolation_witness :
    (fetchPage c7env c7cfg).2 = true
    ∧ (fetchPage c7env c7cfg).1.isSome = true :=
  ⟨(C7_render_failure_isolation c7env c7cfg).1,
   (C7_render_failure_isolation c7env c7cfg).2.mpr
     ⟨⟨200, rfl, by omega⟩, fun h => absurd h (by decide)⟩⟩

def c6fsBadMkdir : FsModel := ⟨fun _ => true, fun _ => true⟩

def c6fsBadWrite : FsModel := ⟨fun _ => false, fun _ => true⟩

def c6params : WriteParams := ⟨"/", false, false, false⟩

def c6url : PageUrl := ⟨"https://example.com", "/"⟩

/-- C6 as stated is refuted: `writeRenderedPage` has no error
handling, so a failing directory creation or file write escapes it as
an error instead of being contained, and the batch is aborted with
exit status 1 via the `unhandledRejection` hook rather than
continuing. -/
theorem C6_counterexample :
    writeRenderedPage c6fsBadMkdir id id id c6params c6url
        (some "<html></html>")
      = Except.error "mkdir failed: rendered"
    ∧ afterWrite (writeRenderedPage c6fsBadMkdir id id id c6params c6url
        (some "<html></html>")) = BatchEffect.aborted 1 :=
  ⟨rfl, rfl⟩

/-- C6 amended: a per-page filesystem failure is not contained by the
Output Pipeline: whenever `writeRenderedPage` results in an error, the
rejection reaches the process-level `unhandledRejection` hook, which
closes the browser, logs the error and exits the process with status
1, aborting the batch instead of continuing. -/
theorem C6_amended_write_error_aborts (fsM : FsModel)
    (inl gz sha : String → String) (params : WriteParams) (u : PageUrl)
    (html : Option String) (e : String)
    (h : writeRenderedPage fsM inl gz sha params u html = Except.error e) :
    afterWrite (writeRenderedPage fsM inl gz sha params u html) =
      BatchEffect.aborted 1 := by
  rw [h]
  rfl

theorem C6_amended_write_error_aborts_witness :
    afterWrite (writeRenderedPage c6fsBadWrite id id id c6params c6url
      (some "<html></html>")) = BatchEffect.aborted 1 :=
  C6_amended_write_error_aborts c6fsBadWrite id id id c6params c6url
    (some "<html></html>") "write failed: rendered/index.html" rfl

def c8params : WriteParams := ⟨"/", false, false, false⟩

def c8u1 : PageUrl := ⟨"https://example.com", "/"⟩

def c8u2 : PageUrl := ⟨"https://example.com", "/about"⟩

def c8u3 : PageUrl := ⟨"https://example.com", "/blog.html"⟩

def c8tasks : List (PageUrl × Option String) :=
  [(c8u1, some "<html>A</html>"), (c8u2, none), (c8u3, some "<html>C</html>")]

/-- C8: a task whose render failed (html absent) still produces
exactly one `saved` event and no file write; in a three-task batch
whose middle task failed to render, files are written for the two
successes only, all three tasks are counted as processed, the
nonempty scheduler run over three tasks completes with all three
counted, and the process exits with status 0. -/
theorem C8_failed_render_counted_not_written :
    (∀ (fsM : FsModel) (inl gz sha : String → String)
        (params : WriteParams) (u : PageUrl),
      writeRenderedPage fsM inl gz sha params u none =
        Except.ok ([u.full], []))
    ∧ runBatch fsOk id id id c8params c8tasks =
        ExecState.running
          [c8u1.full, c8u2.full, c8u3.full]
          [("rendered/index.html", "<html>A</html>"),
           ("rendered/blog.html", "<html>C</html>")]
    ∧ exitCode (runBatch fsOk id id id c8params c8tasks) = 0
    ∧ (∃ s, Reachable 3 1 s ∧ s.doneEmitted = true ∧ s.savedCount = 3
        ∧ s.pagesRendered = 3) := by
  refine ⟨fun fsM inl gz sha params u => rfl, by decide, by decide, ?_⟩
  obtain ⟨t, hr, hd⟩ := reach_done 3 1 (by omega) (by omega)
  have hinv := inv_reachable (M := 3) (N := 1) (by omega) hr
  have hcard := (hinv.done_iff.mp hd).2
  exact ⟨t, hr, hd, by rw [hinv.saved_eq, hcard],
    by rw [hinv.rendered_eq, hcard]⟩

/-- C9: with script-hash extraction enabled (and the orthogonal gzip
and css-inlining transforms off), a successful write produces the page
file and a sidecar whose path swaps the suffix to `.json` and whose
digest list has exactly one entry per inline script block of the
written markup, in order; re-computing the digest of each recovered
block reproduces the listed digest (the list at every index is the
digest of the stripped block at that index). -/
theorem C9_script_hash_roundtrip (sha inl gz : String → String)
    (params : WriteParams) (u : PageUrl) (h : String)
    (hc : params.computeScriptHashes = true) (hg : params.gzip = false)
    (hi : params.inlineCss = false) :
    (computeInlineScriptHashes sha h).length = (extractScriptBlocks h).length
    ∧ (∀ i : Nat, (computeInlineScriptHashes sha h)[i]? =
        ((extractScriptBlocks h)[i]?).map (fun b => sha (stripScriptTags b)))
    ∧ writeRenderedPage fsOk inl gz sha params u (some h) =
        Except.ok ([u.full],
          [(mapOutPath params.outFolder u.pathPart, h),
           (swapToJson (mapOutPath params.outFolder u.pathPart),
            scriptHashesJson (computeInlineScriptHashes sha h))]) := by
  refine ⟨?_, ?_, ?_⟩
  · unfold computeInlineScriptHashes
    rw [List.length_map]
  · intro i
    unfold computeInlineScriptHashes
    rw [List.getElem?_map]
  · have hj : strEndsWith
        (swapToJson (mapOutPath params.outFolder u.pathPart)) "json" = true :=
      swapToJson_json _ (mapOutPath_endsWith _ _)
    simp only [writeRenderedPage, hg, hi, hc, fsOk, hj, Bool.false_eq_true,
      if_false, if_true]

def c9sha : String → String := fun s => "#" ++ s

def c9html : String :=
  "<html><script>var a=1;</script><p>x</p><script>b()</script></html>"

def c9params : WriteParams := ⟨"/", false, true, false⟩

def c9u : PageUrl := ⟨"https://example.com", "/"⟩

theorem C9_script_hash_roundtrip_witness :
    (computeInlineScriptHashes c9sha c9html).length =
      (extractScriptBlocks c9html).length
    ∧ writeRenderedPage fsOk id id c9sha c9params c9u (some c9html) =
        Except.ok ([c9u.full],
          [(mapOutPath c9params.outFolder c9u.pathPart, c9html),
           (swapToJson (mapOutPath c9params.outFolder c9u.pathPart),
            scriptHashesJson (computeInlineScriptHashes c9sha c9html))]) :=
  ⟨(C9_script_hash_roundtrip c9sha id id c9params c9u c9html rfl rfl rfl).1,
   (C9_script_hash_roundtrip c9sha id id c9params c9u c9html rfl rfl rfl).2.2⟩

end RenderSite
